import Mathlib

/-!
Shallow embedding of the PermaItemsMW0rld NFT contract (AssemblyScript, Massa
blockchain).  The repository holds three near-identical variants of the
contract: `src/Items01.ts`, `src/unnamed/part_000` and `src/unnamed/part_001`.

Modelling notes:
* Storage keys `TOKEN_OWNER:{id}`, `BALANCE:{addr}`, `ITEM_METADATA:{id}`,
  `RARITY:{id}`, ... become total maps in `ContractState`.  `u256.toString`
  is injective on token ids, so a `Nat`-indexed map is a faithful image of
  the string-keyed store.
* Machine integers: the counter is a `u256` in the source, but every
  increment is guarded by `counter < ITEM_MAX_SUPPLY = 50000`, so
  `counter + 1 ≤ 50000 < 2^256` and plain `Nat` addition coincides with the
  wrapped addition.  Balances only grow by 1 per mint and are bounded by the
  counter, so the same applies.  Coin amounts (`u64`) are only compared and
  forwarded, never added, so `Nat` is again exact.
* An AssemblyScript `assert` aborts the whole call; the host discards the
  call.  In every mutating entry point of the source all asserts precede the
  first `Storage.set`, which the embedding mirrors: an `Except.error` result
  is produced before any state is built, so a failed call observes no write.
-/

/-- Error taxonomy of the contract (spec section 7) plus the
`IndexOutOfRange` trap raised by an AssemblyScript negative array index. -/
inductive CallError where
  | Unauthorized
  | NotFound
  | UnknownItemType
  | InsufficientPayment
  | SupplyExhausted
  | IndexOutOfRange
  | MalformedRecord
deriving DecidableEq

/-- The persisted key-value tables of the contract, one field per key
prefix of the source (`COUNTER`, `TOKEN_OWNER:`, `BALANCE:`,
`ITEM_METADATA:`, `TOKEN_METADATA:`, `RARITY:`, `APPROVED:`,
`OPERATOR_APPROVAL:`, `OWNER`, `BASE_URI`). -/
structure ContractState where
  counter : Nat
  tokenOwner : Nat → Option String
  balance : String → Nat
  itemMetadata : Nat → Option String
  tokenMetadata : Nat → Option String
  rarity : Nat → Option String
  approved : Nat → Option String
  operatorApproval : String → String → Bool
  owner : String
  baseURI : String

/-- Constant `DEFAULT_XP` of the source. -/
def DEFAULT_XP : Nat := 0

/-- Constant `DEFAULT_MAG` of the source. -/
def DEFAULT_MAG : Nat := 0

/-- Constant `DEFAULT_CONDITION` of the source. -/
def DEFAULT_CONDITION : Nat := 100

/-- Constant `ITEM_MAX_SUPPLY = u256.fromU32(50000)` (part_000, part_001 and
Items01.ts all use 50000). -/
def ITEM_MAX_SUPPLY : Nat := 50000

/-- The `ITEM_PRICES` map of `Items01.ts` and `part_000`.  `Map.get` on a
missing key aborts the call in AssemblyScript, which the embedding reports
as `UnknownItemType`. -/
def ITEM_PRICES (itemType : String) : Option Nat :=
  if itemType = "TitanRope" then some 80
  else if itemType = "MagLum" then some 100
  else if itemType = "NanoShelter" then some 350
  else if itemType = "CrystalCondenser" then some 150
  else if itemType = "CrystalSynthesizer" then some 500
  else none

/-- The part_001 price book: `setItemPrice` is called exactly once per type
in the constructor and there is no other writer, so `getItemPrice` is the
constant table below; `getItemPrice` asserts (aborts) on a missing key. -/
def getItemPrice001 (itemType : String) : Option Nat :=
  if itemType = "TR" then some 80
  else if itemType = "ML" then some 100
  else if itemType = "NS" then some 350
  else if itemType = "CC" then some 150
  else if itemType = "CS" then some 500
  else none

/-- Function `generateMetadata` of part_000 / part_001 / Items01.ts: reads the
`RARITY:{id}` entry (default `Undefined`) and renders the delimited
record. -/
def generateMetadata (s : ContractState) (itemType : String) (tokenId : Nat) : String :=
  let rarity := (s.rarity tokenId).getD "Undefined"
  itemType ++ ",XP=" ++ Nat.repr DEFAULT_XP ++ ",MAG=" ++ Nat.repr DEFAULT_MAG
    ++ ",CONDITION=" ++ Nat.repr DEFAULT_CONDITION ++ ",RARITY=" ++ rarity

/-- Result of a successful `mintItem`: the post state and the amount of
coins forwarded to the contract owner by `transferCoins`. -/
structure MintOutcome where
  state : ContractState
  forwarded : Nat

/-- Function `mintItem` of `part_000` (the `Items01.ts` variant is identical except
that it does not call `_update`; all claims proved below hold for both).
Source order: price lookup, payment check (skipped for the contract owner),
supply check, then the writes (counter, `ITEM_METADATA`, `TOKEN_OWNER`,
`incrementBalance`, `_update` which sets `TOKEN_METADATA` and re-writes the
same `TOKEN_OWNER` value), and finally the coin forwarding.  The
consecutive `Storage.set`s touch distinct keys, so they are collapsed into
one record update. -/
def mintItem (s : ContractState) (caller toAddr itemType : String) (coins : Nat) :
    Except CallError MintOutcome :=
  match ITEM_PRICES itemType with
  | none => Except.error CallError.UnknownItemType
  | some price =>
    if caller ≠ s.owner ∧ coins < price then
      Except.error CallError.InsufficientPayment
    else if ¬ s.counter < ITEM_MAX_SUPPLY then
      Except.error CallError.SupplyExhausted
    else
      let newSupply := s.counter + 1
      let metadata := generateMetadata s itemType newSupply
      let s1 : ContractState :=
        { s with
          counter := newSupply
          itemMetadata := fun t => if t = newSupply then some metadata else s.itemMetadata t
          tokenOwner := fun t => if t = newSupply then some toAddr else s.tokenOwner t
          balance := fun a => if a = toAddr then s.balance a + 1 else s.balance a
          tokenMetadata := fun t => if t = newSupply then some "" else s.tokenMetadata t }
      Except.ok { state := s1, forwarded := if coins > 0 then coins else 0 }

/-- Function `mintItem` of `part_001`.  Differences from `part_000`: the price comes
from the stored price book (`getItemPrice`), `_update` is the NFT-internals
one (token owner set, approval cleared — the file is not in the
repository; that step is modelled from spec section 4.3 step 5), and coins
are forwarded only when the caller is not the contract owner. -/
def mintItem001 (s : ContractState) (caller toAddr itemType : String) (coins : Nat) :
    Except CallError MintOutcome :=
  match getItemPrice001 itemType with
  | none => Except.error CallError.UnknownItemType
  | some price =>
    if caller ≠ s.owner ∧ coins < price then
      Except.error CallError.InsufficientPayment
    else if ¬ s.counter < ITEM_MAX_SUPPLY then
      Except.error CallError.SupplyExhausted
    else
      let newSupply := s.counter + 1
      let metadata := generateMetadata s itemType newSupply
      let s1 : ContractState :=
        { s with
          counter := newSupply
          itemMetadata := fun t => if t = newSupply then some metadata else s.itemMetadata t
          tokenOwner := fun t => if t = newSupply then some toAddr else s.tokenOwner t
          balance := fun a => if a = toAddr then s.balance a + 1 else s.balance a
          approved := fun t => if t = newSupply then none else s.approved t }
      Except.ok
        { state := s1
          forwarded := if coins > 0 ∧ caller ≠ s.owner then coins else 0 }

/-- State right after the constructor: counter 0, empty tables, owner is
the deploying caller, base URI from the arguments. -/
def initialState (deployer baseURI : String) : ContractState :=
  { counter := 0
    tokenOwner := fun _ => none
    balance := fun _ => 0
    itemMetadata := fun _ => none
    tokenMetadata := fun _ => none
    rarity := fun _ => none
    approved := fun _ => none
    operatorApproval := fun _ _ => false
    owner := deployer
    baseURI := baseURI }

/-- Initial state of the part_001 variant, whose constructor hard-codes the
base URI. -/
def initialState001 (deployer : String) : ContractState :=
  initialState deployer "DEFAULT_BASE_URI"

/-- Constant `ERC721_INTERFACE_ID` of part_000. -/
def ERC721_INTERFACE_ID : String := "0x80ac58cd"

/-- Constant `ERC165_INTERFACE_ID` of part_000. -/
def ERC165_INTERFACE_ID : String := "0x01ffc9a7"

/-- Function `supportsInterface` of part_000: a pure function of the interface id
string. -/
def supportsInterface (interfaceId : String) : Bool :=
  interfaceId == ERC721_INTERFACE_ID || interfaceId == ERC165_INTERFACE_ID

/-- C10: `supportsInterface(interfaceId)` is a pure boolean function of its
argument, true exactly for the ERC-721 id `0x80ac58cd` and the ERC-165 id
`0x01ffc9a7`, false on every other input; being a total `String → Bool`
function it neither fails nor mutates state. -/
theorem supportsInterface_spec (iid : String) :
    supportsInterface iid = true ↔ (iid = "0x80ac58cd" ∨ iid = "0x01ffc9a7") := by
  simp [supportsInterface, ERC721_INTERFACE_ID, ERC165_INTERFACE_ID,
    Bool.or_eq_true, beq_iff_eq]

/-- Modelled from the spec: `transferFrom` of part_001 delegates to
`_transferFrom` in `NFT-internals`, a file that is not in the repository.
Spec section 4.1: fails `Unauthorized` unless the caller is the `from`
address, the token's approved spender, or an approved operator of `from`;
fails `NotFound` if the token does not exist or its owner is not `from`;
on success decrements `Balance[from]`, increments `Balance[to]`, sets the
token's owner to `to` and clears its approval. -/
def transferFrom (s : ContractState) (caller from_ toAddr : String) (tokenId : Nat) :
    Except CallError ContractState :=
  if ¬ (caller = from_ ∨ s.approved tokenId = some caller ∨
        s.operatorApproval from_ caller = true) then
    Except.error CallError.Unauthorized
  else
    match s.tokenOwner tokenId with
    | none => Except.error CallError.NotFound
    | some ow =>
      if ow ≠ from_ then Except.error CallError.NotFound
      else
        let b1 := fun a => if a = from_ then s.balance a - 1 else s.balance a
        let b2 := fun a => if a = toAddr then b1 a + 1 else b1 a
        Except.ok
          { s with
            balance := b2
            tokenOwner := fun t => if t = tokenId then some toAddr else s.tokenOwner t
            approved := fun t => if t = tokenId then none else s.approved t }

/-- Function `setRarity` (identical in Items01.ts, part_000 and part_001):
`onlyOwner()` then an unconditional write of `RARITY:{tokenId}` — there is
no existence check on the token id. -/
def setRarity (s : ContractState) (caller : String) (tokenId : Nat) (r : String) :
    Except CallError ContractState :=
  if caller ≠ s.owner then Except.error CallError.Unauthorized
  else
    Except.ok
      { s with rarity := fun t => if t = tokenId then some r else s.rarity t }

/-- JavaScript-style `String#split` with a single-character separator
(AssemblyScript strings follow the same semantics), by structural recursion
on the character list so that concrete calls evaluate inside the kernel. -/
def splitOnCharAux (c : Char) : List Char → List Char → List String
  | [], acc => [String.mk acc.reverse]
  | d :: ds, acc =>
    if d = c then String.mk acc.reverse :: splitOnCharAux c ds []
    else splitOnCharAux c ds (d :: acc)

/-- Method `s.split(c)` of the source. -/
def splitOnChar (c : Char) (s : String) : List String :=
  splitOnCharAux c s.data []

/-- Predicate `p.indexOf(key) == 0` of the source: `key` is a leading substring of
`p`; again structural so that it evaluates inside the kernel. -/
def startsWithKey (p key : String) : Bool :=
  key.data.isPrefixOf p.data

/-- The three mutable index variables of part_001's `updateItemMetadata`
scan loop (its `itemType`, `rarity` and `rarityIndex` locals are dead: the
function never reads them after the loop). -/
structure MetaScan where
  xpIndex : Int
  magIndex : Int
  conditionIndex : Int

/-- The index-finding loop of part_001's `updateItemMetadata`
(`parts[i].indexOf(key) == 0` is `startsWith`); each matching part
overwrites the corresponding index, all indices start at -1. -/
def scanMeta : List String → Int → MetaScan → MetaScan
  | [], _, acc => acc
  | p :: rest, i, acc =>
    if startsWithKey p "XP=" then scanMeta rest (i + 1) { acc with xpIndex := i }
    else if startsWithKey p "MAG=" then scanMeta rest (i + 1) { acc with magIndex := i }
    else if startsWithKey p "CONDITION=" then
      scanMeta rest (i + 1) { acc with conditionIndex := i }
    else scanMeta rest (i + 1) acc

/-- An AssemblyScript array store `parts[i] = v`: a negative index raises a
RangeError (aborting the call); the loop only ever produces indices below
the array length, so the in-range case is `List.set`. -/
def setPart (parts : List String) (i : Int) (v : String) :
    Except CallError (List String) :=
  if i < 0 then Except.error CallError.IndexOutOfRange
  else Except.ok (parts.set i.toNat v)

/-- Function `updateItemMetadata` of part_001: owner gate, split the stored
`ITEM_METADATA:{id}` string (missing key gives the empty string) on commas,
locate the `XP=` / `MAG=` / `CONDITION=` segments by index, overwrite them
positionally, re-join and store.  The new numeric values arrive as `u32`
(hence below 2^32); none of the theorems depend on that bound. -/
def updateItemMetadata (s : ContractState) (caller : String)
    (tokenId newXP newMAG newCondition : Nat) : Except CallError ContractState :=
  if caller ≠ s.owner then Except.error CallError.Unauthorized
  else
    let currentMetadata := (s.itemMetadata tokenId).getD ""
    let parts := splitOnChar ',' currentMetadata
    let idx := scanMeta parts 0 { xpIndex := -1, magIndex := -1, conditionIndex := -1 }
    match setPart parts idx.xpIndex ("XP=" ++ Nat.repr newXP) with
    | Except.error e => Except.error e
    | Except.ok parts1 =>
      match setPart parts1 idx.magIndex ("MAG=" ++ Nat.repr newMAG) with
      | Except.error e => Except.error e
      | Except.ok parts2 =>
        match setPart parts2 idx.conditionIndex ("CONDITION=" ++ Nat.repr newCondition) with
        | Except.error e => Except.error e
        | Except.ok parts3 =>
          let updatedMetadata := String.intercalate "," parts3
          Except.ok
            { s with itemMetadata :=
                fun t => if t = tokenId then some updatedMetadata else s.itemMetadata t }

/-- Function `tokenURI` of part_000: reads the stored metadata string (`Storage.get`
aborts when the token was never minted) and — as written in the source —
passes that whole string back through `generateMetadata` as its `itemType`
argument before composing `{baseURI}/{tokenId}?{metadata}`. -/
def tokenURI (s : ContractState) (tokenId : Nat) : Except CallError String :=
  match s.itemMetadata tokenId with
  | none => Except.error CallError.NotFound
  | some stored =>
    Except.ok (s.baseURI ++ "/" ++ Nat.repr tokenId ++ "?"
      ++ generateMetadata s stored tokenId)

/-- Function `tokenURI` of part_001: returns `{baseURI}/{tokenId}?{metadata}` with
the stored `ITEM_METADATA:{id}` string taken verbatim (empty if absent). -/
def tokenURI001 (s : ContractState) (tokenId : Nat) : String :=
  s.baseURI ++ "/" ++ Nat.repr tokenId ++ "?" ++ (s.itemMetadata tokenId).getD ""

/-- A parsed attribute record `{itemType, xp, mag, condition, rarity}`. -/
structure AttrRecord where
  itemType : String
  xp : String
  mag : String
  condition : String
  rarity : String
deriving DecidableEq

/-- Modelled from the spec: parsing a `tokenURI` query segment back into an
attribute record (the round-trip property of spec section 8): exactly five
comma-separated segments `{itemType},XP=..,MAG=..,CONDITION=..,RARITY=..`. -/
def parseRecord (q : String) : Option AttrRecord :=
  match splitOnChar ',' q with
  | [it, xs, ms, cs, rs] =>
    if startsWithKey xs "XP=" && startsWithKey ms "MAG="
        && startsWithKey cs "CONDITION=" && startsWithKey rs "RARITY=" then
      some { itemType := it, xp := xs.drop 3, mag := ms.drop 4,
             condition := cs.drop 10, rarity := rs.drop 7 }
    else none
  | _ => none

/-- Modelled from the spec: `AttributeStore.read(tokenId)` — the attribute
record currently stored for a token: the item type and numeric fields as
recorded in the `ITEM_METADATA:{id}` string (which `updateItemMetadata`
rewrites), with the rarity taken from the live `RARITY:{id}` entry (which
`setRarity` rewrites), defaulting to `Undefined`. -/
def readRecordSpec (s : ContractState) (tokenId : Nat) : Option AttrRecord :=
  match parseRecord ((s.itemMetadata tokenId).getD "") with
  | none => none
  | some r => some { r with rarity := (s.rarity tokenId).getD "Undefined" }

/-- The query segment of a URI: everything after the first question mark. -/
def queryOf (uri : String) : String :=
  String.intercalate "?" ((splitOnChar '?' uri).drop 1)

/-- Does the delimited metadata string contain a segment carrying the given
key prefix? -/
def hasKey (md key : String) : Bool :=
  (splitOnChar ',' md).any (fun p => startsWithKey p key)

/-- The number of token ids `t ∈ [1, n]` whose stored owner is `a`
(`Finset.range n` enumerates `0, …, n-1`, shifted by one to token ids). -/
def ownedCount (own : Nat → Option String) (n : Nat) (a : String) : Nat :=
  ((Finset.range n).filter (fun i => own (i + 1) = some a)).card

/-- One external call of the ledger state machine: a `mintItem` or a
`transferFrom`. -/
inductive Op where
  | mint (caller toAddr itemType : String) (coins : Nat)
  | transfer (caller from_ toAddr : String) (tokenId : Nat)

/-- Apply one call; `none` when the call aborts (its writes discarded). -/
def applyOp (s : ContractState) : Op → Option ContractState
  | Op.mint caller toAddr itemType coins =>
    match mintItem s caller toAddr itemType coins with
    | Except.ok out => some out.state
    | Except.error _ => none
  | Op.transfer caller from_ toAddr tokenId =>
    match transferFrom s caller from_ toAddr tokenId with
    | Except.ok s2 => some s2
    | Except.error _ => none

/-- Run a sequence of calls, requiring every one of them to succeed. -/
def runOps (s : ContractState) : List Op → Option ContractState
  | [] => some s
  | op :: rest =>
    match applyOp s op with
    | none => none
    | some s2 => runOps s2 rest

/-- Arguments of one `mintItem` call. -/
structure MintCall where
  caller : String
  toAddr : String
  itemType : String
  coins : Nat

/-- Run a sequence of `mintItem` calls, requiring each to succeed. -/
def runMints (s : ContractState) : List MintCall → Option ContractState
  | [] => some s
  | m :: rest =>
    match mintItem s m.caller m.toAddr m.itemType m.coins with
    | Except.error _ => none
    | Except.ok out => runMints out.state rest

/-- Ledger invariant: token 0 never exists, tokens above the counter never
exist, and every balance equals the count of owned token ids in
`[1, counter]`. -/
def LedgerInv (s : ContractState) : Prop :=
  s.tokenOwner 0 = none ∧
  (∀ t, s.counter < t → s.tokenOwner t = none) ∧
  (∀ a, s.balance a = ownedCount s.tokenOwner s.counter a)

theorem ledgerInv_initial (d b : String) : LedgerInv (initialState d b) := by
  refine ⟨rfl, fun t _ => rfl, fun a => ?_⟩
  simp [initialState, ownedCount]

/-- What a successful `mintItem` does to the state. -/
theorem mintItem_ok_state {s : ContractState} {caller toAddr itemType : String}
    {coins : Nat} {out : MintOutcome}
    (h : mintItem s caller toAddr itemType coins = Except.ok out) :
    out.state.counter = s.counter + 1 ∧
    out.state.tokenOwner
      = (fun t => if t = s.counter + 1 then some toAddr else s.tokenOwner t) ∧
    out.state.balance = (fun a => if a = toAddr then s.balance a + 1 else s.balance a) ∧
    s.counter < ITEM_MAX_SUPPLY ∧
    out.state.owner = s.owner ∧ out.state.baseURI = s.baseURI ∧
    out.state.rarity = s.rarity ∧
    out.state.itemMetadata = (fun t =>
      if t = s.counter + 1 then some (generateMetadata s itemType (s.counter + 1))
      else s.itemMetadata t) := by
  unfold mintItem at h
  cases hp : ITEM_PRICES itemType with
  | none => rw [hp] at h; exact absurd h (by simp)
  | some p =>
    rw [hp] at h
    dsimp only at h
    by_cases h1 : caller ≠ s.owner ∧ coins < p
    · rw [if_pos h1] at h; exact absurd h (by simp)
    · rw [if_neg h1] at h
      by_cases h2 : ¬ s.counter < ITEM_MAX_SUPPLY
      · rw [if_pos h2] at h; exact absurd h (by simp)
      · rw [if_neg h2] at h
        cases h
        exact ⟨rfl, rfl, rfl, not_not.mp h2, rfl, rfl, rfl, rfl⟩

/-- What a successful `transferFrom` does to the state. -/
theorem transferFrom_ok_state {s : ContractState} {caller from_ toAddr : String}
    {tokenId : Nat} {s2 : ContractState}
    (h : transferFrom s caller from_ toAddr tokenId = Except.ok s2) :
    s.tokenOwner tokenId = some from_ ∧
    s2.counter = s.counter ∧
    s2.tokenOwner = (fun t => if t = tokenId then some toAddr else s.tokenOwner t) ∧
    s2.balance = (fun a =>
      if a = toAddr then (if a = from_ then s.balance a - 1 else s.balance a) + 1
      else if a = from_ then s.balance a - 1 else s.balance a) := by
  unfold transferFrom at h
  by_cases hauth : ¬ (caller = from_ ∨ s.approved tokenId = some caller ∨
      s.operatorApproval from_ caller = true)
  · rw [if_pos hauth] at h; exact absurd h (by simp)
  · rw [if_neg hauth] at h
    cases ho : s.tokenOwner tokenId with
    | none => rw [ho] at h; exact absurd h (by simp)
    | some ow =>
      rw [ho] at h
      dsimp only at h
      by_cases how : ow ≠ from_
      · rw [if_pos how] at h; exact absurd h (by simp)
      · rw [if_neg how] at h
        cases h
        have hw : ow = from_ := not_not.mp how
        subst hw
        exact ⟨rfl, rfl, rfl, rfl⟩

/-- Minting token `n + 1` adds exactly one owned token for the recipient
and none for anybody else. -/
theorem ownedCount_mint (own : Nat → Option String) (n : Nat) (toAddr a : String) :
    ownedCount (fun t => if t = n + 1 then some toAddr else own t) (n + 1) a
      = ownedCount own n a + (if a = toAddr then 1 else 0) := by
  unfold ownedCount
  dsimp only
  rw [Finset.range_succ, Finset.filter_insert]
  have hfc : ((Finset.range n).filter
        (fun i => (if i + 1 = n + 1 then some toAddr else own (i + 1)) = some a))
      = (Finset.range n).filter (fun i => own (i + 1) = some a) := by
    refine Finset.filter_congr ?_
    intro i hi
    have hi' : i < n := Finset.mem_range.mp hi
    rw [if_neg (by omega)]
  have hn : (if n + 1 = n + 1 then some toAddr else own (n + 1)) = some toAddr :=
    if_pos rfl
  rw [hn, hfc]
  by_cases hta : toAddr = a
  · rw [if_pos (by rw [hta]), if_pos hta.symm]
    rw [Finset.card_insert_of_not_mem
      (fun hmem => absurd (Finset.mem_range.mp (Finset.mem_filter.mp hmem).1)
        (lt_irrefl n))]
  · rw [if_neg (fun he => hta (Option.some.inj he)),
      if_neg (fun he => hta he.symm)]
    omega

/-- Transferring token `tid` (owned by `from_`, with `1 ≤ tid ≤ n`) to
`toAddr` moves exactly one owned token from `from_` to `toAddr`. -/
theorem ownedCount_transfer (own : Nat → Option String) (n tid : Nat)
    (from_ toAddr a : String) (h1 : 1 ≤ tid) (h2 : tid ≤ n)
    (hown : own tid = some from_) :
    ownedCount (fun t => if t = tid then some toAddr else own t) n a
      + (if a = from_ then 1 else 0)
    = ownedCount own n a + (if a = toAddr then 1 else 0) := by
  classical
  have hmem : tid - 1 ∈ Finset.range n := Finset.mem_range.mpr (by omega)
  have hid : tid - 1 + 1 = tid := by omega
  unfold ownedCount
  dsimp only
  rw [Finset.card_filter, Finset.card_filter]
  rw [← Finset.add_sum_erase _ _ hmem, ← Finset.add_sum_erase _ _ hmem]
  have hsum : (∑ i ∈ (Finset.range n).erase (tid - 1),
        (if (if i + 1 = tid then some toAddr else own (i + 1)) = some a then 1 else 0))
      = ∑ i ∈ (Finset.range n).erase (tid - 1),
          (if own (i + 1) = some a then 1 else 0) := by
    refine Finset.sum_congr rfl ?_
    intro i hi
    have hne : i ≠ tid - 1 := Finset.ne_of_mem_erase hi
    have hred : (if i + 1 = tid then some toAddr else own (i + 1)) = own (i + 1) :=
      if_neg (by omega)
    rw [hred]
  rw [hsum, hid, hown]
  have key : ∀ x : String,
      (if some x = some a then (1 : Nat) else 0) = (if a = x then 1 else 0) := by
    intro x
    by_cases h : a = x
    · rw [if_pos (by rw [h]), if_pos h]
    · rw [if_neg (fun he => h (Option.some.inj he).symm), if_neg h]
  have t1 : (if tid = tid then some toAddr else some from_) = some toAddr := if_pos rfl
  rw [t1, key toAddr, key from_]
  ring

/-- A successful mint preserves the ledger invariant. -/
theorem mint_preserves_ledgerInv {s : ContractState} {caller toAddr itemType : String}
    {coins : Nat} {out : MintOutcome}
    (hinv : LedgerInv s) (h : mintItem s caller toAddr itemType coins = Except.ok out) :
    LedgerInv out.state := by
  obtain ⟨h0, hhigh, hbal⟩ := hinv
  obtain ⟨hc, hown, hb, _, _, _, _, _⟩ := mintItem_ok_state h
  refine ⟨?_, ?_, ?_⟩
  · have e := congrFun hown 0
    rw [e]
    rw [if_neg (by omega)]
    exact h0
  · intro t ht
    rw [hc] at ht
    have e := congrFun hown t
    rw [e]
    rw [if_neg (by omega)]
    exact hhigh t (by omega)
  · intro a
    have e := congrFun hb a
    rw [e]
    rw [hc, hown, ownedCount_mint, hbal a]
    by_cases hat : a = toAddr
    · rw [if_pos hat, if_pos hat]
    · rw [if_neg hat, if_neg hat]
      omega

/-- A successful transfer preserves the ledger invariant. -/
theorem transfer_preserves_ledgerInv {s : ContractState} {caller from_ toAddr : String}
    {tokenId : Nat} {s2 : ContractState}
    (hinv : LedgerInv s) (h : transferFrom s caller from_ toAddr tokenId = Except.ok s2) :
    LedgerInv s2 := by
  obtain ⟨h0, hhigh, hbal⟩ := hinv
  obtain ⟨howner, hc, hown, hb⟩ := transferFrom_ok_state h
  have htid1 : 1 ≤ tokenId := by
    rcases Nat.eq_zero_or_pos tokenId with hz | hp
    · rw [hz, h0] at howner; exact absurd howner (by simp)
    · exact hp
  have htidn : tokenId ≤ s.counter := by
    by_contra hgt
    push_neg at hgt
    rw [hhigh tokenId hgt] at howner
    exact absurd howner (by simp)
  refine ⟨?_, ?_, ?_⟩
  · have e := congrFun hown 0
    rw [e]
    rw [if_neg (by omega)]
    exact h0
  · intro t ht
    rw [hc] at ht
    have e := congrFun hown t
    rw [e]
    rw [if_neg (by omega)]
    exact hhigh t ht
  · intro a
    have e := congrFun hb a
    rw [e]
    rw [hc, hown]
    have hkey := ownedCount_transfer s.tokenOwner s.counter tokenId from_ toAddr a
      htid1 htidn howner
    have hfrom_pos : 1 ≤ ownedCount s.tokenOwner s.counter from_ := by
      have hmem : tokenId - 1 ∈ (Finset.range s.counter).filter
          (fun i => s.tokenOwner (i + 1) = some from_) := by
        refine Finset.mem_filter.mpr ⟨Finset.mem_range.mpr (by omega), ?_⟩
        have hstep : tokenId - 1 + 1 = tokenId := by omega
        rw [hstep, howner]
      have hpos := Finset.card_pos.mpr ⟨tokenId - 1, hmem⟩
      unfold ownedCount
      omega
    have hba := hbal a
    by_cases haf : a = from_
    · by_cases hat : a = toAddr
      · rw [if_pos hat, if_pos haf]
        rw [if_pos haf, if_pos hat] at hkey
        rw [← haf] at hfrom_pos
        omega
      · rw [if_neg hat, if_pos haf]
        rw [if_pos haf, if_neg hat] at hkey
        rw [← haf] at hfrom_pos
        omega
    · by_cases hat : a = toAddr
      · rw [if_pos hat, if_neg haf]
        rw [if_neg haf, if_pos hat] at hkey
        omega
      · rw [if_neg hat, if_neg haf]
        rw [if_neg haf, if_neg hat] at hkey
        omega

/-- One successful call preserves the ledger invariant. -/
theorem applyOp_preserves_ledgerInv {s s2 : ContractState} {op : Op}
    (hinv : LedgerInv s) (h : applyOp s op = some s2) : LedgerInv s2 := by
  cases op with
  | mint caller toAddr itemType coins =>
    simp only [applyOp] at h
    cases hm : mintItem s caller toAddr itemType coins with
    | error e => rw [hm] at h; exact absurd h (by simp)
    | ok out =>
      rw [hm] at h
      have he : out.state = s2 := Option.some.inj h
      rw [← he]
      exact mint_preserves_ledgerInv hinv hm
  | transfer caller from_ toAddr tokenId =>
    simp only [applyOp] at h
    cases hm : transferFrom s caller from_ toAddr tokenId with
    | error e => rw [hm] at h; exact absurd h (by simp)
    | ok st =>
      rw [hm] at h
      have he : st = s2 := Option.some.inj h
      rw [← he]
      exact transfer_preserves_ledgerInv hinv hm

/-- Every state reachable by successful calls satisfies the invariant. -/
theorem runOps_preserves_ledgerInv {ops : List Op} {s s2 : ContractState}
    (hinv : LedgerInv s) (h : runOps s ops = some s2) : LedgerInv s2 := by
  induction ops generalizing s with
  | nil =>
    have he : s = s2 := Option.some.inj h
    rw [← he]; exact hinv
  | cons op rest ih =>
    unfold runOps at h
    cases ha : applyOp s op with
    | none => rw [ha] at h; exact absurd h (by simp)
    | some smid =>
      rw [ha] at h
      exact ih (applyOp_preserves_ledgerInv hinv ha) h

/-- C1: for every address `a` and after every sequence of successful
`mintItem` and `transferFrom` calls from the deployed initial state, the
stored balance `BALANCE:{a}` equals the number of token ids in
`[1, Counter]` whose stored owner is `a`.  (`transferFrom` is modelled
from spec section 4.1 because `NFT-internals` is not in the repository.) -/
theorem balances_match_ownership (d b : String) (ops : List Op) (s2 : ContractState)
    (h : runOps (initialState d b) ops = some s2) (a : String) :
    s2.balance a = ownedCount s2.tokenOwner s2.counter a :=
  (runOps_preserves_ledgerInv (ledgerInv_initial d b) h).2.2 a

/-- Witness for C1: a concrete mint followed by a transfer, evaluated. -/
theorem balances_match_ownership_witness :
    (((runOps (initialState "d" "b")
        [Op.mint "d" "alice" "TitanRope" 0,
         Op.transfer "alice" "alice" "bob" 1]).getD
          (initialState "d" "b")).balance "bob")
      = ownedCount
          ((runOps (initialState "d" "b")
            [Op.mint "d" "alice" "TitanRope" 0,
             Op.transfer "alice" "alice" "bob" 1]).getD
              (initialState "d" "b")).tokenOwner
          ((runOps (initialState "d" "b")
            [Op.mint "d" "alice" "TitanRope" 0,
             Op.transfer "alice" "alice" "bob" 1]).getD
              (initialState "d" "b")).counter "bob" := by
  refine balances_match_ownership "d" "b"
    [Op.mint "d" "alice" "TitanRope" 0, Op.transfer "alice" "alice" "bob" 1] _ ?_ "bob"
  rfl

/-- Each successful mint in a run advances the counter by exactly one. -/
theorem runMints_counter {ms : List MintCall} {s s2 : ContractState}
    (h : runMints s ms = some s2) : s2.counter = s.counter + ms.length := by
  induction ms generalizing s with
  | nil =>
    have he : s = s2 := Option.some.inj h
    rw [← he]; simp
  | cons m rest ih =>
    simp only [runMints] at h
    cases hm : mintItem s m.caller m.toAddr m.itemType m.coins with
    | error e => rw [hm] at h; exact absurd h (by simp)
    | ok out =>
      rw [hm] at h
      have h2 := ih h
      have hc := (mintItem_ok_state hm).1
      rw [h2, hc, List.length_cons]
      omega

/-- A run of successful mints preserves the ledger invariant. -/
theorem runMints_preserves_ledgerInv {ms : List MintCall} {s s2 : ContractState}
    (hinv : LedgerInv s) (h : runMints s ms = some s2) : LedgerInv s2 := by
  induction ms generalizing s with
  | nil =>
    have he : s = s2 := Option.some.inj h
    rw [← he]; exact hinv
  | cons m rest ih =>
    simp only [runMints] at h
    cases hm : mintItem s m.caller m.toAddr m.itemType m.coins with
    | error e => rw [hm] at h; exact absurd h (by simp)
    | ok out =>
      rw [hm] at h
      exact ih (mint_preserves_ledgerInv hinv hm) h

/-- A successful run splits at any position into two successful runs. -/
theorem runMints_take {ms : List MintCall} {s s2 : ContractState}
    (h : runMints s ms = some s2) (i : Nat) :
    ∃ si, runMints s (ms.take i) = some si ∧ runMints si (ms.drop i) = some s2 := by
  induction ms generalizing s i with
  | nil =>
    refine ⟨s, by simp [runMints], ?_⟩
    simpa [runMints] using h
  | cons m rest ih =>
    cases i with
    | zero => exact ⟨s, rfl, h⟩
    | succ j =>
      simp only [runMints] at h
      cases hm : mintItem s m.caller m.toAddr m.itemType m.coins with
      | error e => rw [hm] at h; exact absurd h (by simp)
      | ok out =>
        rw [hm] at h
        obtain ⟨si, h1, h2⟩ := ih h j
        refine ⟨si, ?_, ?_⟩
        · rw [List.take_succ_cons]
          simp only [runMints]
          rw [hm]
          exact h1
        · rw [List.drop_succ_cons]
          exact h2

/-- C2: starting from the deployed initial state (`Counter = 0`), after a
sequence of `n` successful `mintItem` calls the counter equals `n`, and the
`i`-th successful mint (zero-indexed here) runs from a state with counter
`i`, allocates exactly the fresh token id `i + 1` (previously unowned) to
its recipient, and moves the counter to `i + 1`: ids are assigned
`1, 2, 3, …` with no gaps and no reuse. -/
theorem mint_ids_sequential (d b : String) (ms : List MintCall) (s2 : ContractState)
    (h : runMints (initialState d b) ms = some s2) :
    s2.counter = ms.length ∧
    ∀ i, (hi : i < ms.length) → ∃ si out,
      runMints (initialState d b) (ms.take i) = some si ∧
      si.counter = i ∧
      mintItem si ms[i].caller ms[i].toAddr ms[i].itemType ms[i].coins
        = Except.ok out ∧
      si.tokenOwner (i + 1) = none ∧
      out.state.counter = i + 1 ∧
      out.state.tokenOwner (i + 1) = some ms[i].toAddr ∧
      runMints out.state (ms.drop (i + 1)) = some s2 := by
  constructor
  · have hcount := runMints_counter h
    simpa [initialState] using hcount
  · intro i hi
    obtain ⟨si, h1, h2⟩ := runMints_take h i
    have hcnt : si.counter = i := by
      have := runMints_counter h1
      simpa [initialState, List.length_take, Nat.min_eq_left (le_of_lt hi)] using this
    rw [List.drop_eq_getElem_cons hi] at h2
    simp only [runMints] at h2
    cases hm : mintItem si ms[i].caller ms[i].toAddr ms[i].itemType ms[i].coins with
    | error e => rw [hm] at h2; exact absurd h2 (by simp)
    | ok out =>
      rw [hm] at h2
      have hinv := runMints_preserves_ledgerInv (ledgerInv_initial d b) h1
      have hfresh : si.tokenOwner (i + 1) = none := hinv.2.1 (i + 1) (by omega)
      obtain ⟨hoc, hto, _, _, _, _, _, _⟩ := mintItem_ok_state hm
      refine ⟨si, out, h1, hcnt, hm, hfresh, ?_, ?_, h2⟩
      · rw [hoc, hcnt]
      · have e := congrFun hto (i + 1)
        rw [e, hcnt]
        rw [if_pos rfl]

/-- Witness for C2: two concrete owner self-mints, evaluated. -/
theorem mint_ids_sequential_witness :
    ((runMints (initialState "d" "b")
        [{ caller := "d", toAddr := "alice", itemType := "TitanRope", coins := 0 },
         { caller := "d", toAddr := "bob", itemType := "MagLum", coins := 0 }]).getD
      (initialState "d" "b")).counter = 2 := by
  refine (mint_ids_sequential "d" "b"
    [{ caller := "d", toAddr := "alice", itemType := "TitanRope", coins := 0 },
     { caller := "d", toAddr := "bob", itemType := "MagLum", coins := 0 }] _ ?_).1
  rfl

/-- C3 counterexample: in a state whose counter equals `MaxSupply`, a mint
by a non-owner with no attached payment fails with `InsufficientPayment`,
not `SupplyExhausted`, because the payment check precedes the supply
check.  The claim as stated (always `SupplyExhausted`) is therefore false. -/
theorem mint_at_max_supply_counterexample :
    mintItem { initialState "d" "b" with counter := ITEM_MAX_SUPPLY }
        "mallory" "alice" "TitanRope" 0
      = Except.error CallError.InsufficientPayment ∧
    CallError.InsufficientPayment ≠ CallError.SupplyExhausted :=
  ⟨rfl, by decide⟩

/-- C3 (amended): when the counter equals `MaxSupply`, `mintItem` always
fails — leaving the state unchanged, since no write precedes any check —
and it fails with `SupplyExhausted` precisely when the earlier validations
pass: the item type is known and the caller is the contract owner or
attached at least the price. -/
theorem mint_at_max_supply_amended (s : ContractState) (caller toAddr itemType : String)
    (coins : Nat) (hmax : s.counter = ITEM_MAX_SUPPLY) :
    (∃ e, mintItem s caller toAddr itemType coins = Except.error e) ∧
    (∀ p, ITEM_PRICES itemType = some p → (caller = s.owner ∨ p ≤ coins) →
      mintItem s caller toAddr itemType coins
        = Except.error CallError.SupplyExhausted) := by
  constructor
  · unfold mintItem
    cases hp : ITEM_PRICES itemType with
    | none => exact ⟨_, rfl⟩
    | some p =>
      dsimp only
      by_cases h1 : caller ≠ s.owner ∧ coins < p
      · rw [if_pos h1]; exact ⟨_, rfl⟩
      · rw [if_neg h1, if_pos (by omega)]; exact ⟨_, rfl⟩
  · intro p hp hpay
    unfold mintItem
    rw [hp]
    dsimp only
    rw [if_neg (by
      intro hcon
      obtain ⟨hne, hlt⟩ := hcon
      rcases hpay with hco | hple
      · exact hne hco
      · omega)]
    rw [if_pos (by omega)]

/-- Witness for the amended C3: an owner mint at full supply. -/
theorem mint_at_max_supply_amended_witness :
    mintItem { initialState "d" "b" with counter := ITEM_MAX_SUPPLY }
        "d" "alice" "TitanRope" 0
      = Except.error CallError.SupplyExhausted :=
  (mint_at_max_supply_amended _ "d" "alice" "TitanRope" 0 rfl).2 80 rfl (Or.inl rfl)

/-- C4: for every caller (the contract owner included), every recipient,
every attached payment and every item type missing from the price table,
`mintItem` fails with `UnknownItemType` in both variants; since this holds
for arbitrary payments and the error is produced before the payment branch
and before any write, the item-type validation strictly precedes both. -/
theorem mint_unknown_item_type (s : ContractState) (caller toAddr itemType : String)
    (coins : Nat) (h0 : ITEM_PRICES itemType = none)
    (h1 : getItemPrice001 itemType = none) :
    mintItem s caller toAddr itemType coins
      = Except.error CallError.UnknownItemType ∧
    mintItem001 s caller toAddr itemType coins
      = Except.error CallError.UnknownItemType := by
  constructor
  · unfold mintItem; rw [h0]
  · unfold mintItem001; rw [h1]

/-- Witness for C4: the unknown item type `Sword`, with payment attached. -/
theorem mint_unknown_item_type_witness :
    mintItem (initialState "d" "b") "d" "alice" "Sword" 999
      = Except.error CallError.UnknownItemType ∧
    mintItem001 (initialState "d" "b") "d" "alice" "Sword" 999
      = Except.error CallError.UnknownItemType :=
  mint_unknown_item_type _ "d" "alice" "Sword" 999 rfl rfl

/-- C6: a non-owner minting a known item type with attached payment
strictly below the price fails with `InsufficientPayment`; the failure
precedes every write, so the state is unchanged, and the forwarding branch
at the end of the success path is never reached, so nothing is forwarded. -/
theorem mint_insufficient_payment (s : ContractState) (caller toAddr itemType : String)
    (coins p : Nat) (hp : ITEM_PRICES itemType = some p)
    (hc : caller ≠ s.owner) (hlt : coins < p) :
    mintItem s caller toAddr itemType coins
      = Except.error CallError.InsufficientPayment := by
  unfold mintItem
  rw [hp]
  dsimp only
  rw [if_pos ⟨hc, hlt⟩]

/-- Witness for C6: 79 coins against the 80-coin `TitanRope` price. -/
theorem mint_insufficient_payment_witness :
    mintItem (initialState "d" "b") "mallory" "alice" "TitanRope" 79
      = Except.error CallError.InsufficientPayment :=
  mint_insufficient_payment _ "mallory" "alice" "TitanRope" 79 80 rfl
    (by decide) (by decide)

/-- C5 counterexample: in the part_001 variant an owner self-mint with an
attached payment of 5 succeeds (`some` result) but forwards 0 rather than
the attached 5 — the forwarding there is guarded by `caller != owner`, so
the claim that the entire payment is forwarded on owner self-mints is
false. -/
theorem owner_self_mint_forwarding_counterexample :
    (mintItem001 (initialState001 "d") "d" "alice" "TR" 5).toOption.map
        MintOutcome.forwarded = some 0 ∧ (0 : Nat) ≠ 5 :=
  ⟨rfl, by decide⟩

/-- C5 (amended): owner mints succeed regardless of the attached payment;
in the `Items01.ts` / part_000 variant every successful mint forwards the
entire attached payment (owner self-mints included), while in the part_001
variant a successful mint forwards the entire payment exactly when the
caller is not the contract owner: a paying non-owner mint forwards
everything, an owner self-mint forwards nothing.  The two variants have
disjoint price-table keys, so each conjunct carries its own price
hypothesis. -/
theorem mint_forwarding_amended (s : ContractState)
    (caller toAddr itemType itemType001 : String) (coins p q : Nat)
    (hp : ITEM_PRICES itemType = some p)
    (hq001 : getItemPrice001 itemType001 = some q)
    (hsup : s.counter < ITEM_MAX_SUPPLY) :
    (caller = s.owner →
      ∃ out, mintItem s caller toAddr itemType coins = Except.ok out ∧
        out.forwarded = coins) ∧
    (∀ out, mintItem s caller toAddr itemType coins = Except.ok out →
      out.forwarded = coins) ∧
    (caller = s.owner →
      ∃ out, mintItem001 s caller toAddr itemType001 coins = Except.ok out ∧
        out.forwarded = 0) ∧
    (caller ≠ s.owner → q ≤ coins →
      ∃ out, mintItem001 s caller toAddr itemType001 coins = Except.ok out ∧
        out.forwarded = coins) ∧
    (∀ out, mintItem001 s caller toAddr itemType001 coins = Except.ok out →
      out.forwarded = (if caller = s.owner then 0 else coins)) := by
  refine ⟨?_, ?_, ?_, ?_, ?_⟩
  · intro hco
    unfold mintItem
    rw [hp]
    dsimp only
    rw [if_neg (fun hcon => hcon.1 hco), if_neg (not_not_intro hsup)]
    refine ⟨_, rfl, ?_⟩
    show (if coins > 0 then coins else 0) = coins
    by_cases hcz : coins > 0
    · rw [if_pos hcz]
    · rw [if_neg hcz]; omega
  · intro out hm
    unfold mintItem at hm
    rw [hp] at hm
    dsimp only at hm
    by_cases h1 : caller ≠ s.owner ∧ coins < p
    · rw [if_pos h1] at hm; exact absurd hm (by simp)
    · rw [if_neg h1, if_neg (not_not_intro hsup)] at hm
      cases hm
      show (if coins > 0 then coins else 0) = coins
      by_cases hcz : coins > 0
      · rw [if_pos hcz]
      · rw [if_neg hcz]; omega
  · intro hco
    unfold mintItem001
    rw [hq001]
    dsimp only
    rw [if_neg (fun hcon => hcon.1 hco), if_neg (not_not_intro hsup)]
    refine ⟨_, rfl, ?_⟩
    show (if coins > 0 ∧ caller ≠ s.owner then coins else 0) = 0
    rw [if_neg (fun hcon => hcon.2 hco)]
  · intro hne hle
    unfold mintItem001
    rw [hq001]
    dsimp only
    rw [if_neg (fun hcon => absurd hcon.2 (by omega)), if_neg (not_not_intro hsup)]
    refine ⟨_, rfl, ?_⟩
    show (if coins > 0 ∧ caller ≠ s.owner then coins else 0) = coins
    by_cases hcz : coins > 0
    · rw [if_pos ⟨hcz, hne⟩]
    · rw [if_neg (fun hcon => hcz hcon.1)]; omega
  · intro out hm
    unfold mintItem001 at hm
    rw [hq001] at hm
    dsimp only at hm
    by_cases h1 : caller ≠ s.owner ∧ coins < q
    · rw [if_pos h1] at hm; exact absurd hm (by simp)
    · rw [if_neg h1, if_neg (not_not_intro hsup)] at hm
      cases hm
      show (if coins > 0 ∧ caller ≠ s.owner then coins else 0)
        = (if caller = s.owner then 0 else coins)
      by_cases hco : caller = s.owner
      · rw [if_pos hco, if_neg (fun hcon => hcon.2 hco)]
      · rw [if_neg hco]
        by_cases hcz : coins > 0
        · rw [if_pos ⟨hcz, hco⟩]
        · rw [if_neg (fun hcon => hcz hcon.1)]; omega

/-- Witness for the amended C5: an owner self-mint with 5 attached coins
forwards the whole 5 in the part_000 / Items01.ts variant and nothing in
the part_001 variant, while a part_001 non-owner mint of `TR` (price 80)
with 100 attached coins forwards the whole 100. -/
theorem mint_forwarding_amended_witness :
    (mintItem (initialState "d" "b") "d" "alice" "TitanRope" 5).toOption.map
        MintOutcome.forwarded = some 5 ∧
    (mintItem001 (initialState "d" "b") "d" "alice" "TR" 5).toOption.map
        MintOutcome.forwarded = some 0 ∧
    (mintItem001 (initialState "d" "b") "mallory" "alice" "TR" 100).toOption.map
        MintOutcome.forwarded = some 100 := by
  refine ⟨?_, ?_, ?_⟩
  · obtain ⟨out, hok, hf⟩ := (mint_forwarding_amended (initialState "d" "b") "d" "alice"
      "TitanRope" "TR" 5 80 80 rfl rfl (by decide)).1 rfl
    rw [hok]
    simp only [Except.toOption, Option.map, hf]
  · obtain ⟨out, hok, hf⟩ := (mint_forwarding_amended (initialState "d" "b") "d" "alice"
      "TitanRope" "TR" 5 80 80 rfl rfl (by decide)).2.2.1 rfl
    rw [hok]
    simp only [Except.toOption, Option.map, hf]
  · obtain ⟨out, hok, hf⟩ := (mint_forwarding_amended (initialState "d" "b") "mallory" "alice"
      "TitanRope" "TR" 100 80 80 rfl rfl (by decide)).2.2.2.1 (by decide) (by decide)
    rw [hok]
    simp only [Except.toOption, Option.map, hf]

/-- If no segment carries the `XP=` prefix, the scan leaves `xpIndex`
untouched (at its initial -1). -/
theorem scanMeta_xp_stays (parts : List String) (i : Int) (acc : MetaScan)
    (h : ∀ p ∈ parts, startsWithKey p "XP=" = false) :
    (scanMeta parts i acc).xpIndex = acc.xpIndex := by
  induction parts generalizing i acc with
  | nil => rfl
  | cons p rest ih =>
    have hp := h p (List.mem_cons_self p rest)
    have hrest : ∀ q ∈ rest, startsWithKey q "XP=" = false :=
      fun q hq => h q (List.mem_cons_of_mem p hq)
    rw [scanMeta]
    rw [if_neg (by simp [hp])]
    by_cases hm : startsWithKey p "MAG=" = true
    · rw [if_pos hm]; exact ih _ _ hrest
    · rw [if_neg hm]
      by_cases hc : startsWithKey p "CONDITION=" = true
      · rw [if_pos hc]; exact ih _ _ hrest
      · rw [if_neg hc]; exact ih _ _ hrest

/-- If no segment carries the `MAG=` prefix, the scan leaves `magIndex`
untouched. -/
theorem scanMeta_mag_stays (parts : List String) (i : Int) (acc : MetaScan)
    (h : ∀ p ∈ parts, startsWithKey p "MAG=" = false) :
    (scanMeta parts i acc).magIndex = acc.magIndex := by
  induction parts generalizing i acc with
  | nil => rfl
  | cons p rest ih =>
    have hp := h p (List.mem_cons_self p rest)
    have hrest : ∀ q ∈ rest, startsWithKey q "MAG=" = false :=
      fun q hq => h q (List.mem_cons_of_mem p hq)
    rw [scanMeta]
    by_cases hx : startsWithKey p "XP=" = true
    · rw [if_pos hx]; exact ih _ _ hrest
    · rw [if_neg hx]
      rw [if_neg (by simp [hp])]
      by_cases hc : startsWithKey p "CONDITION=" = true
      · rw [if_pos hc]; exact ih _ _ hrest
      · rw [if_neg hc]; exact ih _ _ hrest

/-- If no segment carries the `CONDITION=` prefix, the scan leaves
`conditionIndex` untouched. -/
theorem scanMeta_condition_stays (parts : List String) (i : Int) (acc : MetaScan)
    (h : ∀ p ∈ parts, startsWithKey p "CONDITION=" = false) :
    (scanMeta parts i acc).conditionIndex = acc.conditionIndex := by
  induction parts generalizing i acc with
  | nil => rfl
  | cons p rest ih =>
    have hp := h p (List.mem_cons_self p rest)
    have hrest : ∀ q ∈ rest, startsWithKey q "CONDITION=" = false :=
      fun q hq => h q (List.mem_cons_of_mem p hq)
    rw [scanMeta]
    by_cases hx : startsWithKey p "XP=" = true
    · rw [if_pos hx]; exact ih _ _ hrest
    · rw [if_neg hx]
      by_cases hm : startsWithKey p "MAG=" = true
      · rw [if_pos hm]; exact ih _ _ hrest
      · rw [if_neg hm]
        rw [if_neg (by simp [hp])]
        exact ih _ _ hrest

/-- C7 counterexample: on a stored metadata string with none of the three
keys, the owner-only numeric update aborts with the array
index-out-of-range trap (`parts[-1] = …`), not with a detected
`MalformedRecord` error as the claim states. -/
theorem update_metadata_malformed_counterexample :
    updateItemMetadata
        { initialState "d" "b" with
          itemMetadata := fun t => if t = 1 then some "hello" else none }
        "d" 1 10 5 80
      = Except.error CallError.IndexOutOfRange ∧
    CallError.IndexOutOfRange ≠ CallError.MalformedRecord :=
  ⟨rfl, by decide⟩

/-- C7 (amended): when the stored metadata string of a token does not
contain all three of the `XP=`, `MAG=` and `CONDITION=` segments, the
owner-only `updateItemMetadata` aborts with the index-out-of-range trap of
the AssemblyScript `parts[-1] = …` store — there is no `MalformedRecord`
detection — and since the abort precedes the `Storage.set`, the stored
metadata is unchanged and no corrupted record is written back. -/
theorem update_metadata_missing_key_traps (s : ContractState) (caller : String)
    (tokenId newXP newMAG newCondition : Nat) (hown : caller = s.owner)
    (hmiss : hasKey ((s.itemMetadata tokenId).getD "") "XP=" = false ∨
             hasKey ((s.itemMetadata tokenId).getD "") "MAG=" = false ∨
             hasKey ((s.itemMetadata tokenId).getD "") "CONDITION=" = false) :
    updateItemMetadata s caller tokenId newXP newMAG newCondition
      = Except.error CallError.IndexOutOfRange := by
  unfold updateItemMetadata
  rw [if_neg (not_not_intro hown)]
  dsimp only
  set P := splitOnChar ',' ((s.itemMetadata tokenId).getD "") with hP
  set idx := scanMeta P 0 { xpIndex := -1, magIndex := -1, conditionIndex := -1 }
    with hidx
  have hneg : idx.xpIndex = -1 ∨ idx.magIndex = -1 ∨ idx.conditionIndex = -1 := by
    rcases hmiss with hm | hm | hm
    · left
      have hall : ∀ p ∈ P, startsWithKey p "XP=" = false := by
        intro p hp
        simpa using (List.any_eq_false.mp hm) p hp
      rw [hidx, scanMeta_xp_stays P 0 _ hall]
    · right; left
      have hall : ∀ p ∈ P, startsWithKey p "MAG=" = false := by
        intro p hp
        simpa using (List.any_eq_false.mp hm) p hp
      rw [hidx, scanMeta_mag_stays P 0 _ hall]
    · right; right
      have hall : ∀ p ∈ P, startsWithKey p "CONDITION=" = false := by
        intro p hp
        simpa using (List.any_eq_false.mp hm) p hp
      rw [hidx, scanMeta_condition_stays P 0 _ hall]
  have herr : ∀ (Q : List String) (k : Int) (v : String), k < 0 →
      setPart Q k v = Except.error CallError.IndexOutOfRange := by
    intro Q k v hk
    unfold setPart
    rw [if_pos hk]
  have hsok : ∀ (Q : List String) (k : Int) (v : String), ¬ k < 0 →
      setPart Q k v = Except.ok (Q.set k.toNat v) := by
    intro Q k v hk
    unfold setPart
    rw [if_neg hk]
  by_cases hx0 : idx.xpIndex < 0
  · rw [herr _ _ _ hx0]
  · rw [hsok _ _ _ hx0]
    dsimp only
    by_cases hm0 : idx.magIndex < 0
    · rw [herr _ _ _ hm0]
    · rw [hsok _ _ _ hm0]
      dsimp only
      have hc0 : idx.conditionIndex < 0 := by
        rcases hneg with hx | hm | hc
        · exact absurd (by omega : idx.xpIndex < 0) hx0
        · exact absurd (by omega : idx.magIndex < 0) hm0
        · omega
      rw [herr _ _ _ hc0]

/-- Witness for the amended C7: token 2 was never minted, so its stored
metadata is the empty string and carries no `XP=` segment. -/
theorem update_metadata_missing_key_traps_witness :
    updateItemMetadata (initialState "d" "b") "d" 2 10 5 80
      = Except.error CallError.IndexOutOfRange :=
  update_metadata_missing_key_traps _ "d" 2 10 5 80 rfl (Or.inl rfl)

/-- C8 counterexample: in the part_000 / Items01.ts variant, `tokenURI` of
a freshly minted token feeds the whole stored metadata string back through
`generateMetadata`, so the query segment carries the record twice
(nine comma-separated segments); parsing it yields `none`, while the
attribute record actually stored for the token exists — the round trip
fails already for a fresh mint. -/
theorem tokenURI_roundtrip_counterexample :
    ((mintItem (initialState "d" "b") "d" "alice" "TitanRope" 0).toOption.map
      (fun out =>
        ((tokenURI out.state 1).toOption.getD "",
         parseRecord (queryOf ((tokenURI out.state 1).toOption.getD "")),
         readRecordSpec out.state 1)))
    = some
        ("b/1?TitanRope,XP=0,MAG=0,CONDITION=100,RARITY=Undefined,XP=0,MAG=0,CONDITION=100,RARITY=Undefined",
         none,
         some { itemType := "TitanRope", xp := "0", mag := "0",
                condition := "100", rarity := "Undefined" }) := rfl

/-- A successful owner self-mint in the part_001 variant, written out. -/
theorem mintItem001_owner_ok (s : ContractState) (caller toAddr itemType : String)
    (p : Nat) (hq : getItemPrice001 itemType = some p) (hco : caller = s.owner)
    (hsup : s.counter < ITEM_MAX_SUPPLY) :
    mintItem001 s caller toAddr itemType 0 = Except.ok
      { state :=
          { s with
            counter := s.counter + 1
            itemMetadata := fun t =>
              if t = s.counter + 1 then
                some (generateMetadata s itemType (s.counter + 1))
              else s.itemMetadata t
            tokenOwner := fun t =>
              if t = s.counter + 1 then some toAddr else s.tokenOwner t
            balance := fun a => if a = toAddr then s.balance a + 1 else s.balance a
            approved := fun t => if t = s.counter + 1 then none else s.approved t }
        forwarded := 0 } := by
  unfold mintItem001
  rw [hq]
  dsimp only
  rw [if_neg (fun hcon => hcon.1 hco), if_neg (not_not_intro hsup)]
  rfl

/-- C8 (amended): in the part_001 variant, `tokenURI` returns
`{baseURI}/{tokenId}?{m}` with `m` the stored `ITEM_METADATA:{id}` string
verbatim, so for a freshly minted token the query segment parses back to
exactly the stored attribute record (item type, default numerics, rarity
`Undefined`).  The round trip holds only for the record as stored in
`ITEM_METADATA`: a later `setRarity` rewrites `RARITY:{id}` but not that
string, and the part_000 / Items01.ts variant re-wraps the stored string
through `generateMetadata`, so neither reflects the claim as stated. -/
theorem tokenURI_roundtrip_amended (deployer toAddr itemType : String) (p : Nat)
    (hp : getItemPrice001 itemType = some p) :
    ∃ out, mintItem001 (initialState001 deployer) deployer toAddr itemType 0
        = Except.ok out ∧
      parseRecord (queryOf (tokenURI001 out.state 1)) = readRecordSpec out.state 1 ∧
      readRecordSpec out.state 1
        = some { itemType := itemType, xp := "0", mag := "0",
                 condition := "100", rarity := "Undefined" } := by
  unfold getItemPrice001 at hp
  split_ifs at hp with h1 h2 h3 h4 h5
  · subst h1
    exact ⟨_, mintItem001_owner_ok _ deployer toAddr _ 80 rfl rfl (by show (0:Nat) < ITEM_MAX_SUPPLY; decide), rfl, rfl⟩
  · subst h2
    exact ⟨_, mintItem001_owner_ok _ deployer toAddr _ 100 rfl rfl (by show (0:Nat) < ITEM_MAX_SUPPLY; decide), rfl, rfl⟩
  · subst h3
    exact ⟨_, mintItem001_owner_ok _ deployer toAddr _ 350 rfl rfl (by show (0:Nat) < ITEM_MAX_SUPPLY; decide), rfl, rfl⟩
  · subst h4
    exact ⟨_, mintItem001_owner_ok _ deployer toAddr _ 150 rfl rfl (by show (0:Nat) < ITEM_MAX_SUPPLY; decide), rfl, rfl⟩
  · subst h5
    exact ⟨_, mintItem001_owner_ok _ deployer toAddr _ 500 rfl rfl (by show (0:Nat) < ITEM_MAX_SUPPLY; decide), rfl, rfl⟩

/-- Witness for the amended C8: a concrete `TR` mint evaluated. -/
theorem tokenURI_roundtrip_amended_witness :
    (mintItem001 (initialState001 "d") "d" "alice" "TR" 0).toOption.map
        (fun out => readRecordSpec out.state 1)
      = some (some { itemType := "TR", xp := "0", mag := "0",
                     condition := "100", rarity := "Undefined" }) := by
  obtain ⟨out, hok, hrt, hread⟩ := tokenURI_roundtrip_amended "d" "alice" "TR" 80 rfl
  rw [hok]
  simp only [Except.toOption, Option.map, hread]

/-- C9: an owner `setRarity` call succeeds for every token id — including
ids that were never minted, since no existence check is performed — writes
`RARITY:{tokenId}` and changes nothing else: every other token's rarity,
the counter, ownership, balances, item metadata, approvals and collection
data are untouched. -/
theorem setRarity_frame (s : ContractState) (caller : String) (tokenId : Nat)
    (r : String) (hown : caller = s.owner) :
    ∃ s2, setRarity s caller tokenId r = Except.ok s2 ∧
      s2.rarity tokenId = some r ∧
      (∀ t, t ≠ tokenId → s2.rarity t = s.rarity t) ∧
      s2.counter = s.counter ∧ s2.tokenOwner = s.tokenOwner ∧
      s2.balance = s.balance ∧ s2.itemMetadata = s.itemMetadata ∧
      s2.tokenMetadata = s.tokenMetadata ∧ s2.approved = s.approved ∧
      s2.operatorApproval = s.operatorApproval ∧ s2.owner = s.owner ∧
      s2.baseURI = s.baseURI := by
  unfold setRarity
  rw [if_neg (not_not_intro hown)]
  refine ⟨_, rfl, ?_, ?_, rfl, rfl, rfl, rfl, rfl, rfl, rfl, rfl, rfl⟩
  · show (if tokenId = tokenId then some r else s.rarity tokenId) = some r
    rw [if_pos rfl]
  · intro t ht
    show (if t = tokenId then some r else s.rarity t) = s.rarity t
    rw [if_neg ht]

/-- Witness for C9: the owner sets the rarity of the never-minted token
999 on a fresh deployment. -/
theorem setRarity_frame_witness :
    (setRarity (initialState "d" "b") "d" 999 "Rare").toOption.map
        (fun s2 => s2.rarity 999)
      = some (some "Rare") := by
  obtain ⟨s2, hok, h1, _⟩ := setRarity_frame (initialState "d" "b") "d" 999 "Rare" rfl
  rw [hok]
  simp only [Except.toOption, Option.map, h1]
